import Mathlib

/-!
Verification of the ultrasonic attendance system against its specification.

The development shallowly embeds the core of the repository:
* `src/utils/logger.ts` — pattern generation and subsequence verification
  (`generatePattern`, `comparePatterns`, `PASS_THRESHOLD`);
* `src/audio/audioEngine.ts` — the emitter (`UltrasonicEmitter.emit`) and the
  listener (`UltrasonicListener.startRecording`, `clearPeaks`, the noise-floor
  update and peak merging of `analyzeLoop`, `stopAndAnalyze`);
* `src/services/firebase.ts` — config-key grouping (`getConfigKey`,
  `processQueue`) and the handshake wait loop of `processBatch`.

JavaScript numbers are modelled as rationals (`ℚ`); only order comparisons and
exact linear arithmetic on them occur in the embedded fragments.  Stateful code
is modelled by explicit state passing; `Math.random()` is modelled as a stream
of draws; wall-clock time in the handshake loop is modelled as idealized
discrete 50 ms polling ticks.
-/

/-- The symbol alphabet of `audioEngine.ts`: `type PulseType = 'H' | 'L' | '?'`.
The constructor `U` stands for the sentinel `'?'` (missing/unknown). -/
inductive PulseType where
  | H
  | L
  | U
  deriving DecidableEq, Repr

namespace AUDIO_CONFIG

/-- `FREQ_LOW: 17500` from `AUDIO_CONFIG` in `audioEngine.ts`. -/
def FREQ_LOW : ℚ := 17500

/-- `FREQ_HIGH: 19000` from `AUDIO_CONFIG`. -/
def FREQ_HIGH : ℚ := 19000

/-- `FREQ_THRESHOLD: 18250` from `AUDIO_CONFIG`. -/
def FREQ_THRESHOLD : ℚ := 18250

/-- `FREQ_TOLERANCE: 250` from `AUDIO_CONFIG`. -/
def FREQ_TOLERANCE : ℚ := 250

/-- `NUM_PULSES: 6` from `AUDIO_CONFIG`. -/
def NUM_PULSES : ℕ := 6

/-- `MAX_PEAKS: 20` from `AUDIO_CONFIG`. -/
def MAX_PEAKS : ℕ := 20

/-- `PEAK_MERGE_FREQ_HZ: 400` from `AUDIO_CONFIG`. -/
def PEAK_MERGE_FREQ_HZ : ℚ := 400

/-- `PEAK_MERGE_TIME_MS: 80` from `AUDIO_CONFIG`. -/
def PEAK_MERGE_TIME_MS : ℚ := 80

end AUDIO_CONFIG

/-- `export const PASS_THRESHOLD = AUDIO_CONFIG.NUM_PULSES - 1` from
`logger.ts` (the pattern-utilities module). -/
def PASS_THRESHOLD : ℕ := AUDIO_CONFIG.NUM_PULSES - 1

/-- The `while` loop of `comparePatterns`: walks `detected` with `detectIndex`
(tracked here as the argument `i`), keeps the unmatched suffix of `emitted`,
and collects the detected positions at which a match was recorded.  Mirrors:

    while (emitIndex < emitted.length && detectIndex < detected.length) {
        if (emitted[emitIndex] === detected[detectIndex]) {
            matchedPositions.push(detectIndex);
            emitIndex++;
        }
        detectIndex++;
    }
-/
def matchedPositionsAux : List PulseType → List PulseType → ℕ → List ℕ
  | _, [], _ => []
  | [], _ :: _, _ => []
  | e :: es, d :: ds, i =>
    if e = d then i :: matchedPositionsAux es ds (i + 1)
    else matchedPositionsAux (e :: es) ds (i + 1)

/-- Result record of `comparePatterns` (the `details` strings are diagnostic
only and are not modelled). -/
structure CompareResult where
  matchCount : ℕ
  passed : Bool
  deriving DecidableEq, Repr

/-- `comparePatterns(emitted, detected)` from `logger.ts`:
`matchCount = matchedPositions.length` and
`passed = matchCount >= PASS_THRESHOLD`. -/
def comparePatterns (emitted detected : List PulseType) : CompareResult :=
  let matchedPositions := matchedPositionsAux emitted detected 0
  { matchCount := matchedPositions.length
    passed := decide (PASS_THRESHOLD ≤ matchedPositions.length) }

/-- Modelled from the spec: the greedy earliest-match subsequence count of
§4.4 — "a single forward pass with two pointers.  Walk the detected sequence
once; whenever the symbol at the current detected position equals the symbol
at the current (unmatched) emitted position, record a match and advance the
emitted pointer; always advance the detected pointer."  Stated separately
from `comparePatterns` so the code can be compared against the spec. -/
def specGreedyMatchCount : List PulseType → List PulseType → ℕ
  | _, [] => 0
  | [], _ :: _ => 0
  | e :: es, d :: ds =>
    if e = d then specGreedyMatchCount es ds + 1
    else specGreedyMatchCount (e :: es) ds

theorem matchedPositionsAux_length (ds es : List PulseType) (i : ℕ) :
    (matchedPositionsAux es ds i).length = specGreedyMatchCount es ds := by
  induction ds generalizing es i with
  | nil => cases es <;> simp [matchedPositionsAux, specGreedyMatchCount]
  | cons d ds ih =>
    cases es with
    | nil => simp [matchedPositionsAux, specGreedyMatchCount]
    | cons e es =>
      by_cases h : e = d <;>
        simp [matchedPositionsAux, specGreedyMatchCount, h, ih]

theorem specGreedyMatchCount_le (ds es : List PulseType) :
    specGreedyMatchCount es ds ≤ es.length := by
  induction ds generalizing es with
  | nil => cases es <;> simp [specGreedyMatchCount]
  | cons d ds ih =>
    cases es with
    | nil => simp [specGreedyMatchCount]
    | cons e es =>
      by_cases h : e = d
      · simpa [specGreedyMatchCount, h] using ih es
      · have := ih (e :: es)
        simp [specGreedyMatchCount, h] at this ⊢
        omega

theorem specGreedyMatchCount_append_of_exhausted (ds es noise : List PulseType)
    (h : specGreedyMatchCount es ds = es.length) :
    specGreedyMatchCount es (ds ++ noise) = es.length := by
  induction ds generalizing es with
  | nil =>
    cases es with
    | nil =>
      cases noise <;> simp [specGreedyMatchCount]
    | cons e es => simp [specGreedyMatchCount] at h
  | cons d ds ih =>
    cases es with
    | nil =>
      have : specGreedyMatchCount [] (d :: ds ++ noise) = 0 := by
        simp [specGreedyMatchCount]
      simpa [this]
    | cons e es =>
      by_cases hed : e = d
      · have h' : specGreedyMatchCount es ds = es.length := by
          have := h
          simp [specGreedyMatchCount, hed] at this
          omega
        simp [specGreedyMatchCount, hed, ih es h']
      · have h' : specGreedyMatchCount (e :: es) ds = (e :: es).length := by
          simpa [specGreedyMatchCount, hed] using h
        simpa [specGreedyMatchCount, hed] using ih (e :: es) h'

/-- C1: `comparePatterns` computes exactly the greedy earliest-match
subsequence count described by the spec (single forward pass, two pointers);
`passed = true` exactly when `matchCount ≥ N - 1` with `N = NUM_PULSES = 6`;
and on the spec's example `emitted = [H,L,H,H,L]`,
`detected = [L,H,H,L,H,H,L,L,L]` the match count is 5. -/
theorem comparePatterns_greedy_spec :
    (∀ emitted detected : List PulseType,
      (comparePatterns emitted detected).matchCount =
          specGreedyMatchCount emitted detected
      ∧ ((comparePatterns emitted detected).passed = true ↔
          AUDIO_CONFIG.NUM_PULSES - 1 ≤ (comparePatterns emitted detected).matchCount))
    ∧ (comparePatterns [.H, .L, .H, .H, .L]
        [.L, .H, .H, .L, .H, .H, .L, .L, .L]).matchCount = 5 := by
  constructor
  · intro emitted detected
    refine ⟨matchedPositionsAux_length detected emitted 0, ?_⟩
    simp [comparePatterns, PASS_THRESHOLD]
  · decide

/-- Witness for C1 at a concrete input. -/
theorem comparePatterns_greedy_spec_witness :
    (comparePatterns [.H, .L] [.H, .L]).matchCount =
        specGreedyMatchCount [.H, .L] [.H, .L]
    ∧ ((comparePatterns [.H, .L] [.H, .L]).passed = true ↔
        AUDIO_CONFIG.NUM_PULSES - 1 ≤ (comparePatterns [.H, .L] [.H, .L]).matchCount) :=
  comparePatterns_greedy_spec.1 [.H, .L] [.H, .L]

/-- C5: `matchCount ≤ len(emitted)`, and once the emitted pattern has been
exhausted by the match, appending extra symbols to the end of `detected`
leaves `matchCount` unchanged. -/
theorem comparePatterns_bound_and_append_stable :
    ∀ emitted detected : List PulseType,
      (comparePatterns emitted detected).matchCount ≤ emitted.length
      ∧ ((comparePatterns emitted detected).matchCount = emitted.length →
          ∀ noise : List PulseType,
            (comparePatterns emitted (detected ++ noise)).matchCount =
              emitted.length) := by
  intro emitted detected
  constructor
  · rw [(comparePatterns_greedy_spec.1 emitted detected).1]
    exact specGreedyMatchCount_le detected emitted
  · intro h noise
    rw [(comparePatterns_greedy_spec.1 emitted (detected ++ noise)).1]
    refine specGreedyMatchCount_append_of_exhausted detected emitted noise ?_
    rw [← (comparePatterns_greedy_spec.1 emitted detected).1]
    exact h

/-- Witness for C5 at a concrete input: `emitted` is exhausted by `detected`
and appending two noise symbols does not change the count. -/
theorem comparePatterns_bound_and_append_stable_witness :
    (comparePatterns [.H] [.H]).matchCount ≤ 1
    ∧ (comparePatterns [.H] ([.H] ++ [.L, .L])).matchCount = 1 :=
  ⟨(comparePatterns_bound_and_append_stable [.H] [.H]).1,
   (comparePatterns_bound_and_append_stable [.H] [.H]).2 (by decide) [.L, .L]⟩

/-- C10: the pass threshold is the fixed global constant
`PASS_THRESHOLD = NUM_PULSES - 1 = 5`, independent of the emitted pattern's
length; hence every emitted pattern shorter than 5 symbols fails, no matter
what was detected. -/
theorem comparePatterns_fixed_threshold :
    PASS_THRESHOLD = 5
    ∧ ∀ emitted detected : List PulseType, emitted.length < 5 →
        (comparePatterns emitted detected).passed = false := by
  refine ⟨rfl, ?_⟩
  intro emitted detected h
  have hle : (comparePatterns emitted detected).matchCount ≤ emitted.length :=
    (comparePatterns_bound_and_append_stable emitted detected).1
  have : ¬ (PASS_THRESHOLD ≤ (matchedPositionsAux emitted detected 0).length) := by
    simp only [comparePatterns] at hle
    simp only [PASS_THRESHOLD, AUDIO_CONFIG.NUM_PULSES]
    omega
  simp [comparePatterns, this]

/-- Witness for C10: a length-4 pattern detected exactly still fails. -/
theorem comparePatterns_fixed_threshold_witness :
    (comparePatterns [.H, .L, .H, .H] [.H, .L, .H, .H]).passed = false :=
  comparePatterns_fixed_threshold.2 [.H, .L, .H, .H] [.H, .L, .H, .H] (by decide)

/-- `generatePattern(length)` from `logger.ts`, with `Math.random()` modelled
as a stream of independent draws `rand : ℕ → ℚ` (iteration `i` of the loop
reads draw `i`): `pattern.push(Math.random() < 0.5 ? 'H' : 'L')`. -/
def generatePattern (length : ℕ) (rand : ℕ → ℚ) : List PulseType :=
  (List.range length).map (fun i => if rand i < 1/2 then .H else .L)

/-- The default call `generatePattern()`, whose `length` argument defaults to
`AUDIO_CONFIG.NUM_PULSES`. -/
def generatePatternDefault (rand : ℕ → ℚ) : List PulseType :=
  generatePattern AUDIO_CONFIG.NUM_PULSES rand

/-- C8: for every `n ≥ 0` and every random stream, `generatePattern n` returns
exactly `n` symbols, each of which is `H` or `L` (never the sentinel `?`); the
default-argument call returns exactly `NUM_PULSES = 6` symbols. -/
theorem generatePattern_length_symbols :
    ∀ (n : ℕ) (rand : ℕ → ℚ),
      (generatePattern n rand).length = n
      ∧ (∀ s ∈ generatePattern n rand, s = PulseType.H ∨ s = PulseType.L)
      ∧ (generatePatternDefault rand).length = 6 := by
  intro n rand
  refine ⟨by simp [generatePattern], ?_,
    by simp [generatePatternDefault, generatePattern, AUDIO_CONFIG.NUM_PULSES]⟩
  intro s hs
  simp only [generatePattern, List.mem_map, List.mem_range] at hs
  obtain ⟨i, -, hi⟩ := hs
  subst hi
  by_cases h : rand i < 1/2
  · exact Or.inl (by rw [if_pos h])
  · exact Or.inr (by rw [if_neg h])

/-- Witness for C8 at a concrete length and stream. -/
theorem generatePattern_length_symbols_witness :
    (generatePattern 3 (fun _ => 0)).length = 3
    ∧ (PulseType.H = PulseType.H ∨ PulseType.H = PulseType.L) :=
  ⟨(generatePattern_length_symbols 3 (fun _ => 0)).1,
   (generatePattern_length_symbols 3 (fun _ => 0)).2.1 PulseType.H (by
     have h : ((0 : ℚ) < 1/2) := by norm_num
     simp only [generatePattern, List.mem_map, List.mem_range]
     exact ⟨0, by norm_num, by rw [if_pos h]⟩)⟩

/-- `interface DetectedPeak` from `audioEngine.ts`. -/
structure DetectedPeak where
  frequency : ℚ
  amplitude : ℚ
  timestamp : ℚ
  type : PulseType
  snr : ℚ
  deriving DecidableEq, Repr

/-- The mutable fields of `UltrasonicListener` that the recording logic
touches: `isRecording`, `peaks`, `noiseFloor`. -/
structure ListenerState where
  isRecording : Bool
  peaks : List DetectedPeak
  noiseFloor : ℚ
  deriving DecidableEq, Repr

/-- `UltrasonicListener.startRecording`: returns early when already
recording, otherwise clears the peaks and resets the noise floor to `-100`. -/
def startRecording (s : ListenerState) : ListenerState :=
  if s.isRecording then s
  else { isRecording := true, peaks := [], noiseFloor := -100 }

/-- `UltrasonicListener.clearPeaks`: clears the peaks and resets the noise
floor to `-100` (the log call is diagnostic only). -/
def clearPeaks (s : ListenerState) : ListenerState :=
  { s with peaks := [], noiseFloor := -100 }

/-- The noise-floor update of `analyzeLoop`:

    if (medianAmplitude > this.noiseFloor) {
        this.noiseFloor = this.noiseFloor * 0.9 + medianAmplitude * 0.1;
    }
-/
def updateNoiseFloor (noiseFloor medianAmplitude : ℚ) : ℚ :=
  if medianAmplitude > noiseFloor then
    noiseFloor * (9/10) + medianAmplitude * (1/10)
  else noiseFloor

/-- C3: the per-frame noise-floor update never decreases the estimate — it is
unchanged when the frame median does not exceed it, and is replaced by the
strictly larger value `0.9*old + 0.1*median` when the median exceeds it; and
`clearPeaks` always, and `startRecording` whenever not already recording,
reset the estimate to `-100`. -/
theorem noiseFloor_ratchet :
    (∀ nf median : ℚ,
      nf ≤ updateNoiseFloor nf median
      ∧ (¬ median > nf → updateNoiseFloor nf median = nf)
      ∧ (median > nf →
          updateNoiseFloor nf median = nf * (9/10) + median * (1/10)
          ∧ nf < updateNoiseFloor nf median))
    ∧ (∀ s : ListenerState, (clearPeaks s).noiseFloor = -100)
    ∧ (∀ s : ListenerState, s.isRecording = false →
        (startRecording s).noiseFloor = -100) := by
  refine ⟨?_, fun s => rfl, ?_⟩
  · intro nf median
    unfold updateNoiseFloor
    by_cases h : median > nf
    · rw [if_pos h]
      exact ⟨by linarith, fun hc => absurd h hc, fun _ => ⟨rfl, by linarith⟩⟩
    · rw [if_neg h]
      exact ⟨le_refl _, fun _ => rfl, fun hm => absurd hm h⟩
  · intro s hs
    simp [startRecording, hs]

/-- Witness for C3 at concrete inputs: a rising median (strict increase), a
non-rising median (no change), and concrete reset calls. -/
theorem noiseFloor_ratchet_witness :
    (0 : ℚ) ≤ updateNoiseFloor 0 10
    ∧ updateNoiseFloor 0 10 = 0 * (9/10) + 10 * (1/10)
    ∧ (0 : ℚ) < updateNoiseFloor 0 10
    ∧ updateNoiseFloor 5 3 = 5
    ∧ (clearPeaks ⟨true, [], 5⟩).noiseFloor = -100
    ∧ (startRecording ⟨false, [], 5⟩).noiseFloor = -100 :=
  ⟨(noiseFloor_ratchet.1 0 10).1,
   ((noiseFloor_ratchet.1 0 10).2.2 (by norm_num)).1,
   ((noiseFloor_ratchet.1 0 10).2.2 (by norm_num)).2,
   (noiseFloor_ratchet.1 5 3).2.1 (by norm_num),
   noiseFloor_ratchet.2.1 ⟨true, [], 5⟩,
   noiseFloor_ratchet.2.2 ⟨false, [], 5⟩ rfl⟩

/-- The merge test of `analyzeLoop`'s peak deduplication:

    this.peaks.find(p =>
        Math.abs(p.frequency - freq) < AUDIO_CONFIG.PEAK_MERGE_FREQ_HZ &&
        (now - p.timestamp) < AUDIO_CONFIG.PEAK_MERGE_TIME_MS)
-/
def isMergeTarget (freq now : ℚ) (p : DetectedPeak) : Bool :=
  decide (|p.frequency - freq| < AUDIO_CONFIG.PEAK_MERGE_FREQ_HZ)
    && decide (now - p.timestamp < AUDIO_CONFIG.PEAK_MERGE_TIME_MS)

/-- The in-place overwrite of the first merge target found by `find`: when the
new detection `d` is strictly stronger, all five fields of the existing peak
are overwritten with `d`'s values; otherwise the list is unchanged (the new
detection is dropped).  Returns `none` when no retained peak matches. -/
def updateFirstMerge (d : DetectedPeak) : List DetectedPeak → Option (List DetectedPeak)
  | [] => none
  | p :: ps =>
    if isMergeTarget d.frequency d.timestamp p then
      some ((if d.amplitude > p.amplitude then d else p) :: ps)
    else
      (updateFirstMerge d ps).map (fun l => p :: l)

/-- The peak-recording step of `analyzeLoop` (lines 393–418): a classified
detection `d` either merges into the first retained peak within the merge
windows, or is pushed at the end of `peaks` as a new peak. -/
def recordDetection (peaks : List DetectedPeak) (d : DetectedPeak) : List DetectedPeak :=
  match updateFirstMerge d peaks with
  | some updated => updated
  | none => peaks ++ [d]

theorem updateFirstMerge_of_find (d : DetectedPeak) :
    ∀ (peaks : List DetectedPeak) (p : DetectedPeak),
      peaks.find? (isMergeTarget d.frequency d.timestamp) = some p →
      ∃ l r, peaks = l ++ p :: r
        ∧ updateFirstMerge d peaks =
            some (l ++ (if d.amplitude > p.amplitude then d else p) :: r) := by
  intro peaks
  induction peaks with
  | nil => intro p h; simp at h
  | cons q ps ih =>
    intro p h
    by_cases hq : isMergeTarget d.frequency d.timestamp q
    · rw [List.find?_cons_of_pos _ hq] at h
      obtain rfl : q = p := by injection h
      exact ⟨[], ps, by simp, by simp [updateFirstMerge, hq]⟩
    · rw [List.find?_cons_of_neg _ hq] at h
      obtain ⟨l, r, rfl, hu⟩ := ih p h
      exact ⟨q :: l, r, by simp, by simp [updateFirstMerge, hq, hu]⟩

/-- C4: when a new classified detection has a merge target among the retained
peaks (first peak within `PEAK_MERGE_FREQ_HZ` and `PEAK_MERGE_TIME_MS`), the
retained peak count does not increase; the target is overwritten by the new
detection's values exactly when the new amplitude is strictly greater and the
new detection is dropped otherwise, every other retained peak being left in
place; the surviving peak carries the higher of the two amplitudes. -/
theorem recordDetection_merges (peaks : List DetectedPeak) (d p : DetectedPeak)
    (h : peaks.find? (isMergeTarget d.frequency d.timestamp) = some p) :
    (recordDetection peaks d).length = peaks.length
    ∧ (∃ l r, peaks = l ++ p :: r
        ∧ recordDetection peaks d =
            l ++ (if d.amplitude > p.amplitude then d else p) :: r)
    ∧ (if d.amplitude > p.amplitude then d else p).amplitude =
        max p.amplitude d.amplitude := by
  obtain ⟨l, r, hp, hu⟩ := updateFirstMerge_of_find d peaks p h
  have hrec : recordDetection peaks d =
      l ++ (if d.amplitude > p.amplitude then d else p) :: r := by
    simp [recordDetection, hu]
  refine ⟨?_, ⟨l, r, hp, hrec⟩, ?_⟩
  · rw [hrec, hp]; simp
  · rcases lt_or_le p.amplitude d.amplitude with hlt | hle
    · simp [hlt, max_eq_right (le_of_lt hlt)]
    · simp [not_lt.2 hle, max_eq_left hle]

/-- A concrete retained peak for the C4 witness. -/
def pkA : DetectedPeak := ⟨17500, -50, 0, PulseType.L, 10⟩

/-- A concrete stronger detection 100 Hz and 50 ms away from `pkA`. -/
def dA : DetectedPeak := ⟨17600, -40, 50, PulseType.L, 12⟩

/-- Witness for C4 at a concrete input. -/
theorem recordDetection_merges_witness :
    (recordDetection [pkA] dA).length = [pkA].length
    ∧ (∃ l r, [pkA] = l ++ pkA :: r
        ∧ recordDetection [pkA] dA =
            l ++ (if dA.amplitude > pkA.amplitude then dA else pkA) :: r)
    ∧ (if dA.amplitude > pkA.amplitude then dA else pkA).amplitude =
        max pkA.amplitude dA.amplitude :=
  recordDetection_merges [pkA] dA pkA (by
    have ht : isMergeTarget dA.frequency dA.timestamp pkA = true := by
      simp only [isMergeTarget, pkA, dA, AUDIO_CONFIG.PEAK_MERGE_FREQ_HZ,
        AUDIO_CONFIG.PEAK_MERGE_TIME_MS, Bool.and_eq_true, decide_eq_true_eq]
      constructor <;> [rw [abs_sub_lt_iff]; skip] <;> norm_num
    rw [List.find?_cons_of_pos _ ht])

/-- The JS ascending comparator `(a, b) => b.amplitude - a.amplitude` of
`stopAndAnalyze`, i.e. sorting by descending amplitude. -/
def byAmplitudeDesc (a b : DetectedPeak) : Bool := decide (b.amplitude ≤ a.amplitude)

/-- The JS ascending comparator `(a, b) => a.timestamp - b.timestamp` of
`stopAndAnalyze`, i.e. chronological order. -/
def byTimestampAsc (a b : DetectedPeak) : Bool := decide (a.timestamp ≤ b.timestamp)

/-- The peak post-processing of `UltrasonicListener.stopAndAnalyze` (the
method also clears `isRecording` and cancels the animation frame; its return
value is computed from the retained peaks as modelled here): when more than
`MAX_PEAKS` peaks were retained, sort by descending amplitude and keep the
first `MAX_PEAKS`; then sort the survivors by timestamp. -/
def stopAndAnalyze (peaks : List DetectedPeak) : List DetectedPeak :=
  let finalPeaks :=
    if AUDIO_CONFIG.MAX_PEAKS < peaks.length then
      (peaks.mergeSort byAmplitudeDesc).take AUDIO_CONFIG.MAX_PEAKS
    else peaks
  finalPeaks.mergeSort byTimestampAsc

theorem sorted_byTimestampAsc (l : List DetectedPeak) :
    List.Sorted (fun a b : DetectedPeak => a.timestamp ≤ b.timestamp)
      (l.mergeSort byTimestampAsc) := by
  have h := @List.sorted_mergeSort DetectedPeak byTimestampAsc
    (fun a b c hab hbc => by
      simp only [byTimestampAsc, decide_eq_true_eq] at hab hbc ⊢
      exact le_trans hab hbc)
    (fun a b => by
      simp only [byTimestampAsc, Bool.or_eq_true, decide_eq_true_eq]
      exact le_total _ _)
    l
  exact h.imp (fun hab => by simpa [byTimestampAsc] using hab)

theorem sorted_byAmplitudeDesc (l : List DetectedPeak) :
    List.Sorted (fun a b : DetectedPeak => b.amplitude ≤ a.amplitude)
      (l.mergeSort byAmplitudeDesc) := by
  have h := @List.sorted_mergeSort DetectedPeak byAmplitudeDesc
    (fun a b c hab hbc => by
      simp only [byAmplitudeDesc, decide_eq_true_eq] at hab hbc ⊢
      exact le_trans hbc hab)
    (fun a b => by
      simp only [byAmplitudeDesc, Bool.or_eq_true, decide_eq_true_eq]
      exact le_total _ _)
    l
  exact h.imp (fun hab => by simpa [byAmplitudeDesc] using hab)

/-- C2: `stopAndAnalyze` returns at most `MAX_PEAKS` peaks, always sorted
chronologically by timestamp (non-decreasing); when more than `MAX_PEAKS`
were retained it returns exactly `MAX_PEAKS` of them, chosen from the
retained multiset so that every returned peak's amplitude is at least every
dropped peak's amplitude. -/
theorem stopAndAnalyze_caps_and_sorts :
    ∀ peaks : List DetectedPeak,
      (stopAndAnalyze peaks).length ≤ AUDIO_CONFIG.MAX_PEAKS
      ∧ List.Sorted (fun a b : DetectedPeak => a.timestamp ≤ b.timestamp)
          (stopAndAnalyze peaks)
      ∧ (AUDIO_CONFIG.MAX_PEAKS < peaks.length →
          (stopAndAnalyze peaks).length = AUDIO_CONFIG.MAX_PEAKS
          ∧ ∃ dropped, peaks.Perm (stopAndAnalyze peaks ++ dropped)
              ∧ ∀ p ∈ stopAndAnalyze peaks, ∀ q ∈ dropped,
                  q.amplitude ≤ p.amplitude) := by
  intro peaks
  by_cases hlen : AUDIO_CONFIG.MAX_PEAKS < peaks.length
  · have hperm1 : (peaks.mergeSort byAmplitudeDesc).Perm peaks :=
      List.mergeSort_perm peaks byAmplitudeDesc
    have hres : stopAndAnalyze peaks =
        ((peaks.mergeSort byAmplitudeDesc).take AUDIO_CONFIG.MAX_PEAKS).mergeSort
          byTimestampAsc := by
      simp [stopAndAnalyze, hlen]
    have hperm2 : (stopAndAnalyze peaks).Perm
        ((peaks.mergeSort byAmplitudeDesc).take AUDIO_CONFIG.MAX_PEAKS) := by
      rw [hres]; exact List.mergeSort_perm _ _
    have hlen2 : (stopAndAnalyze peaks).length = AUDIO_CONFIG.MAX_PEAKS := by
      rw [hperm2.length_eq, List.length_take]
      have : AUDIO_CONFIG.MAX_PEAKS ≤ (peaks.mergeSort byAmplitudeDesc).length := by
        rw [hperm1.length_eq]; omega
      omega
    refine ⟨le_of_eq hlen2, by rw [hres]; exact sorted_byTimestampAsc _,
      fun _ => ⟨hlen2, ?_⟩⟩
    refine ⟨(peaks.mergeSort byAmplitudeDesc).drop AUDIO_CONFIG.MAX_PEAKS, ?_, ?_⟩
    · have hsplit : peaks.Perm
          ((peaks.mergeSort byAmplitudeDesc).take AUDIO_CONFIG.MAX_PEAKS ++
            (peaks.mergeSort byAmplitudeDesc).drop AUDIO_CONFIG.MAX_PEAKS) := by
        rw [List.take_append_drop]; exact hperm1.symm
      exact hsplit.trans (hperm2.symm.append_right _)
    · intro p hp q hq
      exact (sorted_byAmplitudeDesc peaks).rel_of_mem_take_of_mem_drop
        (hperm2.subset hp) hq
  · have hres : stopAndAnalyze peaks = peaks.mergeSort byTimestampAsc := by
      simp [stopAndAnalyze, hlen]
    refine ⟨?_, by rw [hres]; exact sorted_byTimestampAsc _, fun h => absurd h hlen⟩
    rw [hres, (List.mergeSort_perm _ _).length_eq]
    omega

/-- A concrete peak at index `j`, used to build the C2 witness input. -/
def mkIndexPeak (j : ℕ) : DetectedPeak :=
  { frequency := 17500, amplitude := j, timestamp := j,
    type := PulseType.L, snr := 0 }

/-- 21 concrete retained peaks (one more than `MAX_PEAKS`) for the C2
witness. -/
def manyPeaks : List DetectedPeak := (List.range 21).map mkIndexPeak

/-- Witness for C2 at a concrete over-long input. -/
theorem stopAndAnalyze_caps_and_sorts_witness :
    (stopAndAnalyze manyPeaks).length ≤ AUDIO_CONFIG.MAX_PEAKS
    ∧ List.Sorted (fun a b : DetectedPeak => a.timestamp ≤ b.timestamp)
        (stopAndAnalyze manyPeaks)
    ∧ ((stopAndAnalyze manyPeaks).length = AUDIO_CONFIG.MAX_PEAKS
        ∧ ∃ dropped, manyPeaks.Perm (stopAndAnalyze manyPeaks ++ dropped)
            ∧ ∀ p ∈ stopAndAnalyze manyPeaks, ∀ q ∈ dropped,
                q.amplitude ≤ p.amplitude) :=
  ⟨(stopAndAnalyze_caps_and_sorts manyPeaks).1,
   (stopAndAnalyze_caps_and_sorts manyPeaks).2.1,
   (stopAndAnalyze_caps_and_sorts manyPeaks).2.2
     (by unfold manyPeaks AUDIO_CONFIG.MAX_PEAKS
         rw [List.length_map, List.length_range]
         omega)⟩

/-- `interface EmitterConfig` from `audioEngine.ts`; `useOutputFilter` and
`filterCutoff` are optional fields, modelled as `Option`. -/
structure EmitterConfig where
  volume : ℚ
  freqLow : ℚ
  freqHigh : ℚ
  pulseDuration : ℚ
  pulseGap : ℚ
  useOutputFilter : Option Bool
  filterCutoff : Option ℚ
  deriving DecidableEq, Repr

/-- `const useFilter = config.useOutputFilter !== false` in `emit`: the
filter is used unless the flag is explicitly `false`. -/
def useFilter (config : EmitterConfig) : Bool :=
  decide (config.useOutputFilter ≠ some false)

/-- One call to `schedulePulse` as recorded in the hardware-clock schedule
built by `emit` (times in seconds relative to `ctx.currentTime = 0`). -/
structure ScheduledPulse where
  freq : ℚ
  volume : ℚ
  durationMs : ℚ
  startTime : ℚ
  filtered : Bool
  deriving DecidableEq, Repr

/-- `const WAKE_UP_FREQ = 17500` in `emit` (the AGC warm-up pulse). -/
def WAKE_UP_FREQ : ℚ := 17500

/-- The `for` loop of `emit`: pushes
`pattern[i] === 'H' ? config.freqHigh : config.freqLow` onto `emittedFreqs`,
schedules the pulse at the running schedule time, and advances the time by
the pulse duration plus (except after the last pulse) the pulse gap. -/
def emitAux (config : EmitterConfig) : List PulseType → ℚ → List ℚ × List ScheduledPulse
  | [], _ => ([], [])
  | s :: rest, t =>
    ((if s = PulseType.H then config.freqHigh else config.freqLow)
        :: (emitAux config rest
            (t + config.pulseDuration / 1000 +
              (if rest.isEmpty then 0 else config.pulseGap / 1000))).1,
      { freq := if s = PulseType.H then config.freqHigh else config.freqLow,
        volume := config.volume, durationMs := config.pulseDuration,
        startTime := t, filtered := useFilter config }
        :: (emitAux config rest
            (t + config.pulseDuration / 1000 +
              (if rest.isEmpty then 0 else config.pulseGap / 1000))).2)

/-- `UltrasonicEmitter.emit(pattern, config)`: schedules the 40 ms warm-up
pulse at `WAKE_UP_FREQ` at `baseTime = currentTime + 0.01`, advances the
schedule by 0.16 s, schedules the data pulses, and returns `emittedFreqs`
(first component) — the warm-up pulse appears in the schedule (second
component) but is never pushed onto `emittedFreqs`. -/
def emit (pattern : List PulseType) (config : EmitterConfig) :
    List ℚ × List ScheduledPulse :=
  ((emitAux config pattern (1/100 + 16/100)).1,
    { freq := WAKE_UP_FREQ, volume := config.volume, durationMs := 40,
      startTime := 1/100, filtered := useFilter config }
      :: (emitAux config pattern (1/100 + 16/100)).2)

theorem emitAux_freqs (config : EmitterConfig) :
    ∀ (pattern : List PulseType) (t : ℚ),
      (emitAux config pattern t).1 =
        pattern.map (fun s => if s = PulseType.H then config.freqHigh
          else config.freqLow)
      ∧ (emitAux config pattern t).2.map ScheduledPulse.freq =
          (emitAux config pattern t).1 := by
  intro pattern
  induction pattern with
  | nil => intro t; simp [emitAux]
  | cons s rest ih =>
    intro t
    simp [emitAux, ih]

/-- C9: `emit` returns one frequency per pattern symbol — `freqHigh` where
the symbol is `H`, `freqLow` where it is `L` — and the schedule's frequency
list is the warm-up frequency followed by exactly the returned list, so the
warm-up pulse is not included in the returned list. -/
theorem emit_echoes_pattern :
    ∀ (pattern : List PulseType) (config : EmitterConfig),
      (emit pattern config).1.length = pattern.length
      ∧ (∀ i, ∀ hi : i < pattern.length,
          (pattern.get ⟨i, hi⟩ = PulseType.H →
            (emit pattern config).1.getD i 0 = config.freqHigh)
          ∧ (pattern.get ⟨i, hi⟩ = PulseType.L →
            (emit pattern config).1.getD i 0 = config.freqLow))
      ∧ (emit pattern config).2.map ScheduledPulse.freq =
          WAKE_UP_FREQ :: (emit pattern config).1 := by
  intro pattern config
  have hfst : (emit pattern config).1 =
      pattern.map (fun s => if s = PulseType.H then config.freqHigh
        else config.freqLow) :=
    (emitAux_freqs config pattern (1/100 + 16/100)).1
  refine ⟨by rw [hfst]; simp, ?_, ?_⟩
  · intro i hi
    have hm : (emit pattern config).1.getD i 0 =
        (fun s => if s = PulseType.H then config.freqHigh else config.freqLow)
          (pattern.get ⟨i, hi⟩) := by
      rw [hfst, List.getD_eq_getElem?_getD, List.getElem?_map,
        List.getElem?_eq_getElem hi]
      simp [List.get_eq_getElem]
    constructor <;> intro hsym <;> rw [hm, hsym] <;> simp
  · show ScheduledPulse.freq _ :: _ = _
    rw [(emitAux_freqs config pattern (1/100 + 16/100)).2]
    rfl

/-- A concrete config for the C9 witness. -/
def cfg0 : EmitterConfig := ⟨1, 17500, 19000, 100, 80, none, none⟩

/-- Witness for C9 at a concrete pattern and config. -/
theorem emit_echoes_pattern_witness :
    (emit [.H, .L] cfg0).1.length = 2
    ∧ (emit [.H, .L] cfg0).1.getD 0 0 = cfg0.freqHigh
    ∧ (emit [.H, .L] cfg0).1.getD 1 0 = cfg0.freqLow
    ∧ (emit [.H, .L] cfg0).2.map ScheduledPulse.freq =
        WAKE_UP_FREQ :: (emit [.H, .L] cfg0).1 :=
  ⟨(emit_echoes_pattern [.H, .L] cfg0).1,
   ((emit_echoes_pattern [.H, .L] cfg0).2.1 0 (by norm_num)).1 rfl,
   ((emit_echoes_pattern [.H, .L] cfg0).2.1 1 (by norm_num)).2 rfl,
   (emit_echoes_pattern [.H, .L] cfg0).2.2⟩

/-- The participant statuses of the handshake state machine in
`firebase.ts`. -/
inductive QueueStatus where
  | waiting
  | ready
  | emitting
  | listening
  | submitted
  | verified
  | failed
  deriving DecidableEq, Repr

/-- The fields of a `QueueEntry` that queue grouping reads: its identity,
its status and its `EmitterConfig`. -/
structure QueueEntry where
  id : ℕ
  status : QueueStatus
  config : EmitterConfig
  deriving DecidableEq, Repr

/-- One underscore-separated segment of the config-key template string. -/
inductive KeyToken where
  | num : ℚ → KeyToken
  | bool : Bool → KeyToken
  | undef : KeyToken
  deriving DecidableEq, Repr

/-- JS string interpolation of an optional boolean field (`undefined` prints
as the segment `undefined`). -/
def optBoolToken : Option Bool → KeyToken
  | some b => KeyToken.bool b
  | none => KeyToken.undef

/-- JS string interpolation of an optional numeric field. -/
def optNumToken : Option ℚ → KeyToken
  | some q => KeyToken.num q
  | none => KeyToken.undef

/-- `getConfigKey` from `firebase.ts`: the template string
`volume_freqLow_freqHigh_pulseDuration_pulseGap_useOutputFilter_filterCutoff`.
JS renders each field to a segment that contains no underscore and renders
distinct values to distinct segments, so the joined string is modelled as the
list of its seven segments. -/
def getConfigKey (c : EmitterConfig) : List KeyToken :=
  [KeyToken.num c.volume, KeyToken.num c.freqLow, KeyToken.num c.freqHigh,
   KeyToken.num c.pulseDuration, KeyToken.num c.pulseGap,
   optBoolToken c.useOutputFilter, optNumToken c.filterCutoff]

/-- One iteration of the grouping loop in `processQueue`: the JS `Map`
`configGroups` keeps insertion order; a student is appended to the group of
its key, or a fresh singleton group is appended at the end. -/
def insertByKey (k : List KeyToken) (s : QueueEntry) :
    List (List KeyToken × List QueueEntry) → List (List KeyToken × List QueueEntry)
  | [] => [(k, [s])]
  | g :: gs => if g.1 = k then (g.1, g.2 ++ [s]) :: gs else g :: insertByKey k s gs

/-- The `for (const student of students)` grouping loop of `processQueue`. -/
def groupFold : List QueueEntry → List (List KeyToken × List QueueEntry) →
    List (List KeyToken × List QueueEntry)
  | [], gs => gs
  | s :: rest, gs => groupFold rest (insertByKey (getConfigKey s.config) s gs)

/-- `processQueue`'s `configGroups` map; each resulting group becomes exactly
one batch (`processBatch` is called once per group). -/
def groupByConfig (students : List QueueEntry) :
    List (List KeyToken × List QueueEntry) :=
  groupFold students []

/-- The callers of `processQueue` pass
`queue.filter(e => e.status === 'ready')`. -/
def readyStudents (queue : List QueueEntry) : List QueueEntry :=
  queue.filter (fun e => decide (e.status = QueueStatus.ready))

theorem optBoolToken_injective (a b : Option Bool)
    (h : optBoolToken a = optBoolToken b) : a = b := by
  cases a <;> cases b <;> simp_all [optBoolToken]

theorem optNumToken_injective (a b : Option ℚ)
    (h : optNumToken a = optNumToken b) : a = b := by
  cases a <;> cases b <;> simp_all [optNumToken]

theorem getConfigKey_inj (c d : EmitterConfig) :
    getConfigKey c = getConfigKey d ↔ c = d := by
  constructor
  · intro h
    obtain ⟨v, fl, fh, pd, pg, uf, fc⟩ := c
    obtain ⟨v2, fl2, fh2, pd2, pg2, uf2, fc2⟩ := d
    simp only [getConfigKey, List.cons.injEq, KeyToken.num.injEq, and_true] at h
    obtain ⟨h1, h2, h3, h4, h5, h6, h7⟩ := h
    have h6' := optBoolToken_injective _ _ h6
    have h7' := optNumToken_injective _ _ h7
    simp_all
  · intro h
    rw [h]

/-- Invariant: every member of a group carries that group's key. -/
def KeyInv (gs : List (List KeyToken × List QueueEntry)) : Prop :=
  ∀ g ∈ gs, ∀ t ∈ g.2, getConfigKey t.config = g.1

theorem insertByKey_keyInv (k : List KeyToken) (s : QueueEntry)
    (hk : getConfigKey s.config = k) :
    ∀ gs, KeyInv gs → KeyInv (insertByKey k s gs) := by
  intro gs
  induction gs with
  | nil =>
    intro _ g hg t ht
    simp only [insertByKey, List.mem_singleton] at hg
    subst hg
    simp only [List.mem_singleton] at ht
    subst ht
    exact hk
  | cons g' gs ih =>
    intro hinv g hg t ht
    simp only [insertByKey] at hg
    by_cases hgk : g'.1 = k
    · rw [if_pos hgk] at hg
      rcases List.mem_cons.mp hg with rfl | hgs
      · rcases List.mem_append.mp ht with hl | hr
        · exact hinv g' (List.mem_cons_self _ _) t hl
        · simp only [List.mem_singleton] at hr
          subst hr
          rw [hk, hgk]
      · exact hinv g (List.mem_cons_of_mem _ hgs) t ht
    · rw [if_neg hgk] at hg
      rcases List.mem_cons.mp hg with rfl | hgs
      · exact hinv g (List.mem_cons_self _ _) t ht
      · exact ih (fun g h => hinv g (List.mem_cons_of_mem _ h)) g hgs t ht

theorem insertByKey_keys_sub (k : List KeyToken) (s : QueueEntry) :
    ∀ gs, ∀ x ∈ (insertByKey k s gs).map Prod.fst,
      x = k ∨ x ∈ gs.map Prod.fst := by
  intro gs
  induction gs with
  | nil => intro x hx; simp [insertByKey] at hx; exact Or.inl hx
  | cons g' gs ih =>
    intro x hx
    simp only [insertByKey] at hx
    by_cases hgk : g'.1 = k
    · rw [if_pos hgk] at hx
      simp only [List.map_cons, List.mem_cons] at hx ⊢
      tauto
    · rw [if_neg hgk] at hx
      simp only [List.map_cons, List.mem_cons] at hx ⊢
      rcases hx with rfl | hx
      · tauto
      · rcases ih x hx with h | h <;> tauto

theorem insertByKey_keys_nodup (k : List KeyToken) (s : QueueEntry) :
    ∀ gs, (gs.map Prod.fst).Nodup → ((insertByKey k s gs).map Prod.fst).Nodup := by
  intro gs
  induction gs with
  | nil => intro _; simp [insertByKey]
  | cons g' gs ih =>
    intro hnd
    simp only [List.map_cons, List.nodup_cons] at hnd
    simp only [insertByKey]
    by_cases hgk : g'.1 = k
    · rw [if_pos hgk]
      simp only [List.map_cons, List.nodup_cons]
      exact ⟨hnd.1, hnd.2⟩
    · rw [if_neg hgk]
      simp only [List.map_cons, List.nodup_cons]
      refine ⟨fun hmem => ?_, ih hnd.2⟩
      rcases insertByKey_keys_sub k s gs _ hmem with rfl | h
      · exact hgk rfl
      · exact hnd.1 h

theorem insertByKey_mem_old (k : List KeyToken) (s t : QueueEntry) :
    ∀ gs, (∃ g ∈ gs, t ∈ g.2) → ∃ g ∈ insertByKey k s gs, t ∈ g.2 := by
  intro gs
  induction gs with
  | nil => intro h; simp at h
  | cons g' gs ih =>
    intro ⟨g, hg, ht⟩
    simp only [insertByKey]
    by_cases hgk : g'.1 = k
    · rw [if_pos hgk]
      rcases List.mem_cons.mp hg with hEq | hgs
      · exact ⟨(g'.1, g'.2 ++ [s]), List.mem_cons_self _ _,
          List.mem_append.mpr (Or.inl (hEq ▸ ht))⟩
      · exact ⟨g, List.mem_cons_of_mem _ hgs, ht⟩
    · rw [if_neg hgk]
      rcases List.mem_cons.mp hg with hEq | hgs
      · exact ⟨g', List.mem_cons_self _ _, hEq ▸ ht⟩
      · obtain ⟨g2, hg2, ht2⟩ := ih ⟨g, hgs, ht⟩
        exact ⟨g2, List.mem_cons_of_mem _ hg2, ht2⟩

theorem insertByKey_mem_new (k : List KeyToken) (s : QueueEntry) :
    ∀ gs, ∃ g ∈ insertByKey k s gs, s ∈ g.2 := by
  intro gs
  induction gs with
  | nil => exact ⟨(k, [s]), by simp [insertByKey]⟩
  | cons g' gs ih =>
    simp only [insertByKey]
    by_cases hgk : g'.1 = k
    · rw [if_pos hgk]
      exact ⟨(g'.1, g'.2 ++ [s]), List.mem_cons_self _ _,
        List.mem_append.mpr (Or.inr (List.mem_singleton.mpr rfl))⟩
    · rw [if_neg hgk]
      obtain ⟨g2, hg2, hs2⟩ := ih
      exact ⟨g2, List.mem_cons_of_mem _ hg2, hs2⟩

theorem groupFold_keyInv :
    ∀ (l : List QueueEntry) gs, KeyInv gs → KeyInv (groupFold l gs) := by
  intro l
  induction l with
  | nil => intro gs h; exact h
  | cons s rest ih =>
    intro gs h
    exact ih _ (insertByKey_keyInv _ s rfl gs h)

theorem groupFold_keys_nodup :
    ∀ (l : List QueueEntry) gs, (gs.map Prod.fst).Nodup →
      ((groupFold l gs).map Prod.fst).Nodup := by
  intro l
  induction l with
  | nil => intro gs h; exact h
  | cons s rest ih =>
    intro gs h
    exact ih _ (insertByKey_keys_nodup _ s gs h)

theorem groupFold_mem_old (t : QueueEntry) :
    ∀ (l : List QueueEntry) gs, (∃ g ∈ gs, t ∈ g.2) →
      ∃ g ∈ groupFold l gs, t ∈ g.2 := by
  intro l
  induction l with
  | nil => intro gs h; exact h
  | cons s rest ih =>
    intro gs h
    exact ih _ (insertByKey_mem_old _ s t gs h)

theorem groupFold_mem (t : QueueEntry) :
    ∀ (l : List QueueEntry) gs, t ∈ l → ∃ g ∈ groupFold l gs, t ∈ g.2 := by
  intro l
  induction l with
  | nil => intro gs h; simp at h
  | cons s rest ih =>
    intro gs h
    rcases List.mem_cons.mp h with rfl | hrest
    · exact groupFold_mem_old t rest _ (insertByKey_mem_new _ t gs)
    · exact ih _ hrest

theorem eq_of_mem_of_nodup_keys :
    ∀ (gs : List (List KeyToken × List QueueEntry))
      (g₁ g₂ : List KeyToken × List QueueEntry),
      (gs.map Prod.fst).Nodup → g₁ ∈ gs → g₂ ∈ gs → g₁.1 = g₂.1 → g₁ = g₂ := by
  intro gs
  induction gs with
  | nil => intro g₁ g₂ _ h; simp at h
  | cons g rest ih =>
    intro g₁ g₂ hnd h1 h2 hk
    simp only [List.map_cons, List.nodup_cons] at hnd
    rcases List.mem_cons.mp h1 with rfl | h1r
    · rcases List.mem_cons.mp h2 with rfl | h2r
      · rfl
      · have : g₁.1 ∈ rest.map Prod.fst := by
          rw [hk]; exact List.mem_map_of_mem Prod.fst h2r
        exact absurd this hnd.1
    · rcases List.mem_cons.mp h2 with rfl | h2r
      · have : g₂.1 ∈ rest.map Prod.fst := by
          rw [← hk]; exact List.mem_map_of_mem Prod.fst h1r
        exact absurd this hnd.1
      · exact ih g₁ g₂ hnd.2 h1r h2r hk

/-- C6: the config key determines and is determined by the seven
`EmitterConfig` fields, and two ready participants land in the same batch of
`processQueue`'s grouping exactly when their configs agree on all fields; in
particular identical configs always share a batch, and configs differing in
any single field never do. -/
theorem batch_grouping_by_config :
    (∀ c d : EmitterConfig, getConfigKey c = getConfigKey d ↔ c = d)
    ∧ ∀ (queue : List QueueEntry) (a b : QueueEntry),
        a ∈ queue → b ∈ queue →
        a.status = QueueStatus.ready → b.status = QueueStatus.ready →
        ((∃ g ∈ groupByConfig (readyStudents queue), a ∈ g.2 ∧ b ∈ g.2) ↔
          a.config = b.config) := by
  refine ⟨getConfigKey_inj, ?_⟩
  intro queue a b haq hbq ha hb
  have hinv : KeyInv (groupByConfig (readyStudents queue)) :=
    groupFold_keyInv (readyStudents queue) [] (by intro g hg; simp at hg)
  have hnd : ((groupByConfig (readyStudents queue)).map Prod.fst).Nodup :=
    groupFold_keys_nodup (readyStudents queue) [] (by simp)
  constructor
  · intro ⟨g, hg, hag, hbg⟩
    have hka : getConfigKey a.config = g.1 := hinv g hg a hag
    have hkb : getConfigKey b.config = g.1 := hinv g hg b hbg
    exact (getConfigKey_inj a.config b.config).mp (hka.trans hkb.symm)
  · intro hcfg
    have har : a ∈ readyStudents queue :=
      List.mem_filter.mpr ⟨haq, by simp [ha]⟩
    have hbr : b ∈ readyStudents queue :=
      List.mem_filter.mpr ⟨hbq, by simp [hb]⟩
    obtain ⟨ga, hga, hag⟩ := groupFold_mem a (readyStudents queue) [] har
    obtain ⟨gb, hgb, hbg⟩ := groupFold_mem b (readyStudents queue) [] hbr
    have hka : getConfigKey a.config = ga.1 := hinv ga hga a hag
    have hkb : getConfigKey b.config = gb.1 := hinv gb hgb b hbg
    have hkeq : ga.1 = gb.1 := by rw [← hka, ← hkb, hcfg]
    have hgeq : ga = gb := eq_of_mem_of_nodup_keys _ ga gb hnd hga hgb hkeq
    exact ⟨ga, hga, hag, hgeq ▸ hbg⟩

/-- A concrete ready participant for the C6 witness. -/
def entA : QueueEntry := { id := 1, status := QueueStatus.ready, config := cfg0 }

/-- A second concrete ready participant with the same config. -/
def entB : QueueEntry := { id := 2, status := QueueStatus.ready, config := cfg0 }

/-- Witness for C6 at a concrete two-participant queue. -/
theorem batch_grouping_by_config_witness :
    (getConfigKey cfg0 = getConfigKey cfg0 ↔ cfg0 = cfg0)
    ∧ ((∃ g ∈ groupByConfig (readyStudents [entA, entB]),
          entA ∈ g.2 ∧ entB ∈ g.2) ↔ entA.config = entB.config) :=
  ⟨batch_grouping_by_config.1 cfg0 cfg0,
   batch_grouping_by_config.2 [entA, entB] entA entB (by simp) (by simp)
     rfl rfl⟩

/-- `const HANDSHAKE_TIMEOUT = 3000` in `processBatch` (milliseconds). -/
def HANDSHAKE_TIMEOUT : ℕ := 3000

/-- The 50 ms sleep between polls of the handshake loop. -/
def POLL_INTERVAL_MS : ℕ := 50

/-- The handshake polling loop of `processBatch`, in idealized discrete time
(the `k`-th check happens at elapsed time `50 * k` ms):

    while (Date.now() - startTime < HANDSHAKE_TIMEOUT) {
        const readyCount = ...filter(status === 'listening').length;
        if (readyCount === students.length) { allReady = true; break; }
        await new Promise(r => setTimeout(r, 50));
    }

`listeningAt t` is the number of batch participants whose status reads
`listening` at elapsed time `t`; `n` is the batch size.  Returns the elapsed
time at loop exit and the final `allReady` flag.  The fuel argument only
bounds the recursion; from `handshakeWait`'s initial value it never runs
out. -/
def handshakeAux (listeningAt : ℕ → ℕ) (n : ℕ) : ℕ → ℕ → ℕ × Bool
  | 0, k => (POLL_INTERVAL_MS * k, false)
  | fuel + 1, k =>
    if POLL_INTERVAL_MS * k < HANDSHAKE_TIMEOUT then
      if listeningAt (POLL_INTERVAL_MS * k) = n then (POLL_INTERVAL_MS * k, true)
      else handshakeAux listeningAt n fuel (k + 1)
    else (POLL_INTERVAL_MS * k, false)

/-- The handshake wait as entered by `processBatch`: polling starts at
elapsed time 0; 61 iterations dominate the 3000/50 = 60 possible checks. -/
def handshakeWait (listeningAt : ℕ → ℕ) (n : ℕ) : ℕ × Bool :=
  handshakeAux listeningAt n 61 0

theorem handshakeAux_spec (listeningAt : ℕ → ℕ) (n : ℕ) :
    ∀ fuel k, fuel + k = 61 → k ≤ 60 →
      (handshakeAux listeningAt n fuel k).1 ≤ HANDSHAKE_TIMEOUT
      ∧ ((handshakeAux listeningAt n fuel k).2 = true →
          listeningAt (handshakeAux listeningAt n fuel k).1 = n
          ∧ ∃ j, k ≤ j
              ∧ (handshakeAux listeningAt n fuel k).1 = POLL_INTERVAL_MS * j
              ∧ ∀ i, k ≤ i → i < j → listeningAt (POLL_INTERVAL_MS * i) ≠ n)
      ∧ ((handshakeAux listeningAt n fuel k).2 = false →
          (handshakeAux listeningAt n fuel k).1 = HANDSHAKE_TIMEOUT
          ∧ ∀ j, k ≤ j → POLL_INTERVAL_MS * j < HANDSHAKE_TIMEOUT →
              listeningAt (POLL_INTERVAL_MS * j) ≠ n) := by
  intro fuel
  induction fuel with
  | zero => intro k hfk hk; omega
  | succ fuel ih =>
    intro k hfk hk
    simp only [handshakeAux, POLL_INTERVAL_MS, HANDSHAKE_TIMEOUT] at ih ⊢
    by_cases h50 : 50 * k < 3000
    · rw [if_pos h50]
      by_cases hl : listeningAt (50 * k) = n
      · rw [if_pos hl]
        refine ⟨by omega, fun _ => ⟨hl, k, le_refl k, rfl, fun i hki hik => by omega⟩,
          fun hfalse => by simp at hfalse⟩
      · rw [if_neg hl]
        have hk1 : k + 1 ≤ 60 := by omega
        obtain ⟨ihb, ihtrue, ihfalse⟩ := ih (k + 1) (by omega) hk1
        refine ⟨ihb, fun ht => ?_, fun hf => ?_⟩
        · obtain ⟨hlis, j, hkj, hval, hmin⟩ := ihtrue ht
          refine ⟨hlis, j, by omega, hval, fun i hki hij => ?_⟩
          rcases Nat.eq_or_lt_of_le hki with hEq | hlt
          · rw [← hEq]; exact hl
          · exact hmin i hlt hij
        · obtain ⟨hval, hmin⟩ := ihfalse hf
          refine ⟨hval, fun j hkj hjb => ?_⟩
          rcases Nat.eq_or_lt_of_le hkj with hEq | hlt
          · rw [← hEq]; exact hl
          · exact hmin j hlt hjb
    · rw [if_neg h50]
      have hk60 : k = 60 := by omega
      refine ⟨by omega, fun ht => by simp at ht, fun _ => ⟨by omega, ?_⟩⟩
      intro j hkj hjb
      omega

/-- C7: in the idealized discrete-time model (one poll every 50 ms), the
handshake wait of `processBatch` always exits within the 3-second
`HANDSHAKE_TIMEOUT`: it exits with `allReady = true` at the first 50 ms tick
at which every batch participant reads `listening`, and otherwise exits with
`allReady = false` exactly when the timeout elapses — after which
`processBatch` proceeds to emit regardless — so the wait before the emitter
is invoked is bounded and never blocks indefinitely on a straggler. -/
theorem handshake_bounded_and_proceeds :
    ∀ (listeningAt : ℕ → ℕ) (n : ℕ),
      (handshakeWait listeningAt n).1 ≤ HANDSHAKE_TIMEOUT
      ∧ ((handshakeWait listeningAt n).2 = true →
          listeningAt (handshakeWait listeningAt n).1 = n
          ∧ ∃ j, (handshakeWait listeningAt n).1 = POLL_INTERVAL_MS * j
              ∧ ∀ i < j, listeningAt (POLL_INTERVAL_MS * i) ≠ n)
      ∧ ((handshakeWait listeningAt n).2 = false →
          (handshakeWait listeningAt n).1 = HANDSHAKE_TIMEOUT
          ∧ ∀ j, POLL_INTERVAL_MS * j < HANDSHAKE_TIMEOUT →
              listeningAt (POLL_INTERVAL_MS * j) ≠ n) := by
  intro listeningAt n
  obtain ⟨hb, htrue, hfalse⟩ := handshakeAux_spec listeningAt n 61 0 rfl (by omega)
  refine ⟨hb, fun ht => ?_, fun hf => ?_⟩
  · obtain ⟨hlis, j, _, hval, hmin⟩ := htrue ht
    exact ⟨hlis, j, hval, fun i hij => hmin i (Nat.zero_le i) hij⟩
  · obtain ⟨hval, hmin⟩ := hfalse hf
    exact ⟨hval, fun j hjb => hmin j (Nat.zero_le j) hjb⟩

/-- A concrete listening count for the C7 witness: both participants are
listening from 100 ms on. -/
def wListeningAt (t : ℕ) : ℕ := if 100 ≤ t then 2 else 0

/-- Witness for C7: with `wListeningAt` the wait exits early (all ready),
and with nobody ever listening it exits exactly at the timeout. -/
theorem handshake_bounded_and_proceeds_witness :
    (handshakeWait wListeningAt 2).1 ≤ HANDSHAKE_TIMEOUT
    ∧ (wListeningAt (handshakeWait wListeningAt 2).1 = 2
        ∧ ∃ j, (handshakeWait wListeningAt 2).1 = POLL_INTERVAL_MS * j
            ∧ ∀ i < j, wListeningAt (POLL_INTERVAL_MS * i) ≠ 2)
    ∧ ((handshakeWait (fun _ => 0) 2).1 = HANDSHAKE_TIMEOUT
        ∧ ∀ j, POLL_INTERVAL_MS * j < HANDSHAKE_TIMEOUT →
            (fun _ : ℕ => 0) (POLL_INTERVAL_MS * j) ≠ 2) :=
  ⟨(handshake_bounded_and_proceeds wListeningAt 2).1,
   (handshake_bounded_and_proceeds wListeningAt 2).2.1 (by decide),
   (handshake_bounded_and_proceeds (fun _ => 0) 2).2.2 (by decide)⟩
